import Mathlib

/-!
Shallow embedding of the Common-Lisp-style package system in Emacs' `src/pkg.c`
(branch by Gerd Möllmann), and proofs about its name-resolution, intern,
unintern, qualified-resolution and legacy-obarray operations.

Modelling notes.

A `Lisp_Symbol` is modelled by `Symbol` (name, home package `u.s.package`,
and the three flags set for keywords: self-evaluating plain value, constant,
`declared_special`).  A `Lisp_Package` is modelled by `Package`.  Its symbol
hash table (created with `:test string-equal`, keys are the symbols
themselves, values are the status keywords) is modelled as an association
list of (symbol id, stored status); an entry matches a name when the key
symbol's name equals that string, exactly as `hash_lookup` with the
`string-equal` test does.  Since `pkg_add_symbol` is only reached when the
name is not already accessible, a table never holds two entries for one
name, so `Fremhash` (which removes the single string-equal entry) is
modelled by removing every name-equal entry.

Process state (`Vpackage_registry`s heaps of live objects, `Vkeyword_package`,
`Vearmuffs_package`) is an explicit state record `St`: symbols and packages
live in `Nat`-indexed heaps, and `EQ` on them is index equality.

`lookup_symbol1` in C recurses over the use-list, threading a `seen` list to
cut cycles; recursive calls pass a NULL status pointer, so only the top-level
call produces a status (the stored one on a local hit, `:inherited`
otherwise).  Here the recursion is fuel-indexed and structural in the fuel;
the wrapper `lookup_symbol` supplies fuel `number of packages + 1`, and the
theorems `lookup_symbol1_stable`/`lookup_use_list_stable` prove that any fuel
of at least `notSeenCount + 1` gives the same answer, i.e. the C recursion
terminates with that call depth.  `lookup_use_list` is the
`FOR_EACH_TAIL (tail) { ... }` loop over the use-list, with the same
seen-list threading as the C loop (the cons happens before the recursive
call, and the extended list is kept for the remaining iterations).

`lookup_symbol1_visits`/`lookup_use_list_visits` instrument the very same
recursion to report which packages have their symbol table consulted during
one resolution, in order; they are used to settle the claims about the
"seen" set.

Designator handling (`package_or_default`) is modelled for the `nil` and
package cases used by the claims; string designators and the
`fake_me_an_obarray` vector adapter are out of scope of the claims settled
here.
-/

namespace PkgModel

/-- Status actually stored in a package's symbol table (`:internal` or
`:external`; `:inherited` is never stored). -/
inductive PStatus where
  | internal
  | external
deriving DecidableEq

/-- Status reported by a lookup: the stored status on a local hit, or
`:inherited` when the symbol was found via the use-list. -/
inductive LStatus where
  | internal
  | external
  | inherited
deriving DecidableEq

/-- Injection of a stored status into the lookup-status type. -/
def PStatus.toL : PStatus → LStatus
  | PStatus.internal => LStatus.internal
  | PStatus.external => LStatus.external

/-- A `Lisp_Symbol`: immutable name, mutable home package reference
(`u.s.package`), and the flags set by `pkg_intern_symbol1` for keywords
(self-evaluating plain value, constant, `declared_special`). -/
structure Symbol where
  name : String
  pkg : Option Nat
  selfEvaluating : Bool
  isConstant : Bool
  declared_special : Bool
deriving DecidableEq

/-- A `Lisp_Package`: name, nicknames, symbol table (association list of
symbol id and stored status, looked up by the key symbol's name), use-list
and shadowing-symbols list. -/
structure Package where
  name : String
  nicknames : List String
  symbols : List (Nat × PStatus)
  use_list : List Nat
  shadowing_symbols : List Nat
deriving DecidableEq

/-- The process-wide state: the symbol heap, the package heap, and the
distinguished `Vkeyword_package` and `Vearmuffs_package` (current package)
references. -/
structure St where
  syms : List Symbol
  pkgs : List Package
  keyword_package : Nat
  current_package : Nat
deriving DecidableEq

/-- `SYMBOL_NAME` of the symbol with the given id. -/
def symName (st : St) (i : Nat) : String :=
  match st.syms[i]? with
  | some s => s.name
  | none => ""

/-- `SYMBOL_PACKAGE` of the symbol with the given id. -/
def symHome (st : St) (i : Nat) : Option Nat :=
  match st.syms[i]? with
  | some s => s.pkg
  | none => none

/-- Update the symbol with id `i` in place (no-op when `i` is not a live
symbol). -/
def setSym (st : St) (i : Nat) (f : Symbol → Symbol) : St :=
  match st.syms[i]? with
  | some s => { st with syms := st.syms.set i (f s) }
  | none => st

/-- Update the package with id `i` in place (no-op when `i` is not a live
package). -/
def setPkg (st : St) (i : Nat) (f : Package → Package) : St :=
  match st.pkgs[i]? with
  | some p => { st with pkgs := st.pkgs.set i (f p) }
  | none => st

/-- `hash_lookup` of a name in one package's symbol table (the table's test
is `string-equal`, its keys are symbols, so an entry matches when the key
symbol's name is the looked-up string). -/
def lookup_local_entry (st : St) (name : String) (pkg : Package) :
    Option (Nat × PStatus) :=
  pkg.symbols.find? (fun e => symName st e.1 == name)

/-- The `FOR_EACH_TAIL` loop of `lookup_symbol1` over the use-list: skip
packages already in `seen`, otherwise cons the package onto `seen` (the
extension is kept for the remaining iterations, exactly as the C loop
mutates its local `seen`) and search it recursively, returning the first
symbol found. -/
def lookup_use_list (f : Nat → List Nat → Option Nat × LStatus) :
    List Nat → List Nat → Option Nat
  | [], _ => none
  | u :: rest, seen =>
    if u ∈ seen then lookup_use_list f rest seen
    else
      match (f u (u :: seen)).1 with
      | some s => some s
      | none => lookup_use_list f rest (u :: seen)

/-- `lookup_symbol1`: find a name in a package or in the packages it
inherits from, threading `seen` to cut cycles.  The status component is
what the C function stores through its `status` out-pointer: the stored
status on a local hit, `:inherited` otherwise; recursive calls pass a NULL
status pointer, which is modelled by the recursion only consuming the
symbol component of nested results.  The extra fuel argument makes the
recursion structural; `lookup_symbol` supplies sufficient fuel. -/
def lookup_symbol1 (st : St) (name : String) :
    Nat → Nat → List Nat → Option Nat × LStatus
  | 0, _, _ => (none, LStatus.inherited)
  | fuel + 1, pkgId, seen =>
    match st.pkgs[pkgId]? with
    | none => (none, LStatus.inherited)
    | some pkg =>
      match lookup_local_entry st name pkg with
      | some e => (some e.1, PStatus.toL e.2)
      | none =>
        (lookup_use_list (lookup_symbol1 st name fuel) pkg.use_list seen,
         LStatus.inherited)

/-- `lookup_symbol`: the C wrapper calls `lookup_symbol1` with an empty
`seen` list; one package plus one is always sufficient fuel (theorem
`lookup_symbol1_stable`). -/
def lookup_symbol (st : St) (name : String) (pkgId : Nat) :
    Option Nat × LStatus :=
  lookup_symbol1 st name (st.pkgs.length + 1) pkgId []

/-- Local-only lookup (one package's own table, no inheritance). -/
def lookup_local (st : St) (name : String) (pkgId : Nat) :
    Option (Nat × PStatus) :=
  match st.pkgs[pkgId]? with
  | some pkg => lookup_local_entry st name pkg
  | none => none

/-- `pkg_add_symbol`: `Fputhash (symbol, status)` into a package's table.
All call sites only add a name that is not yet present, so consing a fresh
entry models the hash-table insert. -/
def pkg_add_symbol (st : St) (symId : Nat) (status : PStatus) (pkgId : Nat) :
    St :=
  setPkg st pkgId (fun p => { p with symbols := (symId, status) :: p.symbols })

/-- `pkg_remove_symbol`: `Fremhash` of the symbol from a package's table;
with the `string-equal` test this removes the entry whose key symbol has
the same name. -/
def pkg_remove_symbol (st : St) (symId : Nat) (pkgId : Nat) : St :=
  setPkg st pkgId (fun p =>
    { p with symbols :=
        p.symbols.filter (fun e => symName st e.1 != symName st symId) })

/-- `remove_shadowing_symbol`: `Fdelq` of the symbol object from the
package's shadowing list (removal by `EQ`, i.e. by symbol id). -/
def remove_shadowing_symbol (st : St) (symId : Nat) (pkgId : Nat) : St :=
  setPkg st pkgId (fun p =>
    { p with shadowing_symbols :=
        p.shadowing_symbols.filter (fun s => s != symId) })

/-- `pkg_intern_symbol1`: return the symbol if the name is already
accessible; otherwise create a fresh symbol (or adopt `existing_symbol`),
make the package its home, and insert it with status `:external` (plus the
keyword markings) when the package is the keyword package, `:internal`
otherwise.  The status component is what the C function stores through its
`status` out-pointer. -/
def pkg_intern_symbol1 (st : St) (name : String) (pkgId : Nat)
    (existing_symbol : Option Nat) : St × Nat × LStatus :=
  let r := lookup_symbol st name pkgId
  match r.1 with
  | some s => (st, s, r.2)
  | none =>
    let (st1, symbol) :=
      match existing_symbol with
      | some e => (st, e)
      | none =>
        ({ st with syms := st.syms ++
            [{ name := name, pkg := none, selfEvaluating := false,
               isConstant := false, declared_special := false }] },
         st.syms.length)
    let st2 := setSym st1 symbol (fun s => { s with pkg := some pkgId })
    if pkgId = st2.keyword_package then
      let st3 := setSym st2 symbol (fun s =>
        { s with selfEvaluating := true, isConstant := true,
                 declared_special := true })
      let st4 := pkg_add_symbol st3 symbol PStatus.external st3.keyword_package
      (st4, symbol, LStatus.external)
    else
      (pkg_add_symbol st2 symbol PStatus.internal pkgId, symbol,
       LStatus.internal)

/-- `pkg_intern_symbol`: intern with no pre-existing symbol supplied. -/
def pkg_intern_symbol (st : St) (name : String) (pkgId : Nat) :
    St × Nat × LStatus :=
  pkg_intern_symbol1 st name pkgId none

/-- `pkg_unintern_symbol`: look the symbol's name up (local or inherited);
when found with a status other than `:inherited`, remove it from the
shadowing list and the symbol table; regardless, clear the symbol's home
package when it is this package.  The package argument is `nil` (use the
current package) or a package. -/
def pkg_unintern_symbol (st : St) (symId : Nat) (package : Option Nat) :
    St × Bool :=
  let pkgId := package.getD st.current_package
  let r := lookup_symbol st (symName st symId) pkgId
  let removedp := r.1.isSome && r.2 != LStatus.inherited
  let st1 :=
    if removedp then
      pkg_remove_symbol (remove_shadowing_symbol st symId pkgId) symId pkgId
    else st
  let st2 :=
    if symHome st1 symId = some pkgId then
      setSym st1 symId (fun s => { s with pkg := none })
    else st1
  (st2, removedp)

/-- `Ffind_symbol` (the `find-symbol` subr) with the package already
resolved: `nil` when nothing is found, otherwise the symbol and its
status. -/
def Ffind_symbol (st : St) (name : String) (pkgId : Nat) :
    Option (Nat × LStatus) :=
  match lookup_symbol st name pkgId with
  | (none, _) => none
  | (some s, status) => some (s, status)

/-- Error kinds signalled by `pkg_qualified_symbol` via `pkg_error`. -/
inductive PkgErr where
  | UnboundInPackage
  | NotExternal
deriving DecidableEq

/-- `pkg_qualified_symbol`: resolution of a package-qualified name from the
reader (`external = true` for a single colon).  For the keyword package a
missing name is interned on the spot; for any other package a missing name
signals an unbound-in-package error, and a single-colon reference to a
symbol whose reported status is `:internal` signals a not-external
error. -/
def pkg_qualified_symbol (st : St) (name : String) (pkgId : Nat)
    (external : Bool) : Except PkgErr (St × Nat) :=
  let found := Ffind_symbol st name pkgId
  if pkgId = st.keyword_package then
    match found with
    | none =>
      let r := pkg_intern_symbol st name pkgId
      Except.ok (r.1, r.2.1)
    | some (s, _) => Except.ok (st, s)
  else
    match found with
    | none => Except.error PkgErr.UnboundInPackage
    | some (s, status) =>
      if external && (status == LStatus.internal) then
        Except.error PkgErr.NotExternal
      else Except.ok (st, s)

/-- The colon special-casing duplicated at the top of `pkg_emacs_intern`
and `pkg_emacs_intern_soft`: a name starting with `:` together with a `nil`
package argument is rewritten to the name without the colon in the keyword
package. -/
def colon_keyword_adjust (st : St) (name : String) (package : Option Nat) :
    String × Option Nat :=
  if (name.get? 0 == some ':') && package.isNone then
    (name.drop 1, some st.keyword_package)
  else (name, package)

/-- `pkg_emacs_intern` (legacy `intern`): colon special-casing, then
`package_or_default`, then `pkg_intern_symbol`.  The vector-obarray adapter
branch is not modelled. -/
def pkg_emacs_intern (st : St) (name : String) (package : Option Nat) :
    St × Nat :=
  let np := colon_keyword_adjust st name package
  let pkgId := np.2.getD st.current_package
  let r := pkg_intern_symbol st np.1 pkgId
  (r.1, r.2.1)

/-- The argument of legacy `intern-soft`: a symbol or a name string. -/
inductive SymOrStr where
  | sym (id : Nat)
  | str (s : String)
deriving DecidableEq

/-- The `SYMBOLP (name) ? SYMBOL_NAME (name) : name` step at the top of
`pkg_emacs_intern_soft`. -/
def symOrStrName (st : St) : SymOrStr → String
  | SymOrStr.sym id => symName st id
  | SymOrStr.str s => s

/-- `pkg_emacs_intern_soft` (legacy `intern-soft`): a symbol argument
stands for its name; colon special-casing and `package_or_default` as in
`pkg_emacs_intern`; then a pure lookup.  `nil` when nothing is found, and
also when the argument was a symbol object other than the one found. -/
def pkg_emacs_intern_soft (st : St) (name0 : SymOrStr) (package : Option Nat) :
    Option Nat :=
  let name := symOrStrName st name0
  let np := colon_keyword_adjust st name package
  let pkgId := np.2.getD st.current_package
  match (lookup_symbol st np.1 pkgId).1 with
  | none => none
  | some found =>
    match name0 with
    | SymOrStr.sym id => if found = id then some found else none
    | SymOrStr.str _ => some found

/-- `pkg_intern_maybe_keyword`: a name starting with `:` is interned
(without the colon) in the keyword package, any other name in the current
package. -/
def pkg_intern_maybe_keyword (st : St) (name : String) : St × Nat :=
  if name.get? 0 == some ':' then
    let r := pkg_intern_symbol st (name.drop 1) st.keyword_package
    (r.1, r.2.1)
  else
    let r := pkg_intern_symbol st name st.current_package
    (r.1, r.2.1)

/-- The packages whose symbol table `lookup_use_list` consults, in order:
instrumentation of the very same recursion (`f` decides what each nested
search returns, `fv` reports the visits of a nested search). -/
def lookup_use_list_visits (f : Nat → List Nat → Option Nat × LStatus)
    (fv : Nat → List Nat → List Nat) :
    List Nat → List Nat → List Nat
  | [], _ => []
  | u :: rest, seen =>
    if u ∈ seen then lookup_use_list_visits f fv rest seen
    else
      match (f u (u :: seen)).1 with
      | some _ => fv u (u :: seen)
      | none => fv u (u :: seen) ++ lookup_use_list_visits f fv rest (u :: seen)

/-- The packages whose symbol table `lookup_symbol1` consults, in order:
the package itself, then (on a local miss) the visits of the use-list
loop. -/
def lookup_symbol1_visits (st : St) (name : String) :
    Nat → Nat → List Nat → List Nat
  | 0, _, _ => []
  | fuel + 1, pkgId, seen =>
    match st.pkgs[pkgId]? with
    | none => []
    | some pkg =>
      match lookup_local_entry st name pkg with
      | some _ => [pkgId]
      | none =>
        pkgId :: lookup_use_list_visits (lookup_symbol1 st name fuel)
          (lookup_symbol1_visits st name fuel) pkg.use_list seen

/-- The packages searched by one top-level `lookup_symbol` resolution, in
order. -/
def lookup_visits (st : St) (name : String) (pkgId : Nat) : List Nat :=
  lookup_symbol1_visits st name (st.pkgs.length + 1) pkgId []

/-- The number of candidate packages not yet recorded in `seen`; the
measure that bounds the depth of the C recursion. -/
def notSeenCount (n : Nat) (seen : List Nat) : Nat :=
  ((Finset.range n).filter (fun i => i ∉ seen)).card

/-! ### Concrete states used to instantiate the theorems -/

/-- A symbol named `x` whose home package is package 1. -/
def symX1 : Symbol :=
  { name := "x", pkg := some 1, selfEvaluating := false, isConstant := false,
    declared_special := false }

/-- Package `A`, empty table, using package 1. -/
def pkgAuses1 : Package :=
  { name := "A", nicknames := [], symbols := [], use_list := [1],
    shadowing_symbols := [] }

/-- Package `B` holding `x` (symbol 0) as an internal symbol. -/
def pkgBwithX : Package :=
  { name := "B", nicknames := [], symbols := [(0, PStatus.internal)],
    use_list := [], shadowing_symbols := [] }

/-- State for the inheritance scenario: `A` (0) uses `B` (1), `x` interned
in `B` only. -/
def stC1 : St :=
  { syms := [symX1], pkgs := [pkgAuses1, pkgBwithX], keyword_package := 5,
    current_package := 0 }

/-- A lone ordinary package. -/
def pkgPlain : Package :=
  { name := "P", nicknames := [], symbols := [], use_list := [],
    shadowing_symbols := [] }

/-- State with a single ordinary empty package. -/
def stOnePkg : St :=
  { syms := [], pkgs := [pkgPlain], keyword_package := 5,
    current_package := 0 }

/-- The keyword package as built by `init_pkg_once` (nickname the empty
string). -/
def pkgKeyword : Package :=
  { name := "keyword", nicknames := [""], symbols := [], use_list := [],
    shadowing_symbols := [] }

/-- The `emacs` package, empty. -/
def pkgEmacs : Package :=
  { name := "emacs", nicknames := [], symbols := [], use_list := [],
    shadowing_symbols := [] }

/-- Bootstrap-like state: `emacs` (0, the current package) and `keyword`
(1), both empty. -/
def stBoot : St :=
  { syms := [], pkgs := [pkgEmacs, pkgKeyword], keyword_package := 1,
    current_package := 0 }

/-- Package `A` of a two-package use-list cycle. -/
def pkgCycA : Package :=
  { name := "A", nicknames := [], symbols := [], use_list := [1],
    shadowing_symbols := [] }

/-- Package `B` of a two-package use-list cycle. -/
def pkgCycB : Package :=
  { name := "B", nicknames := [], symbols := [], use_list := [0],
    shadowing_symbols := [] }

/-- State with packages 0 and 1 each using the other. -/
def stC4 : St :=
  { syms := [], pkgs := [pkgCycA, pkgCycB], keyword_package := 5,
    current_package := 0 }

/-- State for unintern: package 0 holds `x` (symbol 0, internal, also in
the shadowing list), and symbol 0's home is package 0. -/
def stC5 : St :=
  { syms := [{ name := "x", pkg := some 0, selfEvaluating := false,
               isConstant := false, declared_special := false }]
    pkgs := [{ name := "P", nicknames := [], symbols := [(0, PStatus.internal)],
               use_list := [], shadowing_symbols := [0] }]
    keyword_package := 5
    current_package := 0 }

/-- A symbol named `FOO` whose home package is package 1. -/
def symFOO : Symbol :=
  { name := "FOO", pkg := some 1, selfEvaluating := false, isConstant := false,
    declared_special := false }

/-- State for qualified resolution: `P` (0) uses `Q` (1); `Q` holds `FOO`
(symbol 0) with status internal; 2 is the keyword package. -/
def stC7 : St :=
  { syms := [symFOO]
    pkgs := [{ name := "P", nicknames := [], symbols := [], use_list := [1],
               shadowing_symbols := [] },
             { name := "Q", nicknames := [], symbols := [(0, PStatus.internal)],
               use_list := [], shadowing_symbols := [] },
             pkgKeyword]
    keyword_package := 2
    current_package := 0 }

/-- Same shape as `stC7` but `FOO` stored as external in `Q` (symbol 0). -/
def stC7ext : St :=
  { syms := [symFOO]
    pkgs := [{ name := "P", nicknames := [], symbols := [], use_list := [1],
               shadowing_symbols := [] },
             { name := "Q", nicknames := [], symbols := [(0, PStatus.external)],
               use_list := [], shadowing_symbols := [] },
             pkgKeyword]
    keyword_package := 2
    current_package := 0 }

/-- Two-package cycle used to exhibit a package searched twice. -/
def stC8 : St :=
  { syms := [], pkgs := [pkgCycA, pkgCycB], keyword_package := 5,
    current_package := 0 }

/-- Diamond-shaped use-lists: `A` (0) uses `B` (1) and `C` (2), which both
use `D` (3); all tables empty. -/
def stC8d : St :=
  { syms := []
    pkgs := [{ name := "A", nicknames := [], symbols := [], use_list := [1, 2],
               shadowing_symbols := [] },
             { name := "B", nicknames := [], symbols := [], use_list := [3],
               shadowing_symbols := [] },
             { name := "C", nicknames := [], symbols := [], use_list := [3],
               shadowing_symbols := [] },
             { name := "D", nicknames := [], symbols := [], use_list := [],
               shadowing_symbols := [] }]
    keyword_package := 5
    current_package := 0 }

/-- State for intern-soft: symbols 0 and 1 are both named `x`, but only
symbol 0 is interned (in package 0). -/
def stC9 : St :=
  { syms := [{ name := "x", pkg := some 0, selfEvaluating := false,
               isConstant := false, declared_special := false },
             { name := "x", pkg := none, selfEvaluating := false,
               isConstant := false, declared_special := false }]
    pkgs := [{ name := "emacs", nicknames := [], symbols := [(0, PStatus.internal)],
               use_list := [], shadowing_symbols := [] },
             pkgKeyword]
    keyword_package := 1
    current_package := 0 }

/-- Bootstrap-like state for the legacy colon-interning scenario. -/
def stC10 : St :=
  { syms := [], pkgs := [pkgEmacs, pkgKeyword], keyword_package := 1,
    current_package := 0 }

/-! ### Helper lemmas -/

theorem set_concat {α : Type} (l : List α) (a b : α) :
    (l ++ [a]).set l.length b = l ++ [b] := by
  induction l with
  | nil => rfl
  | cons x xs ih => simp [List.set, ih]

theorem lt_length_of_getElem_opt {α : Type} {l : List α} {i : Nat} {a : α}
    (h : l[i]? = some a) : i < l.length := by
  by_contra hc
  rw [List.getElem?_eq_none (by omega)] at h
  simp at h

theorem notSeenCount_cons_le (n u : Nat) (seen : List Nat) :
    notSeenCount n (u :: seen) ≤ notSeenCount n seen := by
  apply Finset.card_le_card
  intro i hi
  simp only [Finset.mem_filter, Finset.mem_range, List.mem_cons] at hi ⊢
  exact ⟨hi.1, fun h => hi.2 (Or.inr h)⟩

theorem notSeenCount_cons_lt (n u : Nat) (seen : List Nat) (hu : u < n)
    (hns : u ∉ seen) : notSeenCount n (u :: seen) < notSeenCount n seen := by
  apply Finset.card_lt_card
  rw [Finset.ssubset_iff_of_subset]
  · refine ⟨u, ?_, ?_⟩
    · simp only [Finset.mem_filter, Finset.mem_range]
      exact ⟨hu, hns⟩
    · intro hmem
      rw [Finset.mem_filter] at hmem
      exact hmem.2 (List.mem_cons_self u seen)
  · intro i hi
    simp only [Finset.mem_filter, Finset.mem_range, List.mem_cons] at hi ⊢
    exact ⟨hi.1, fun h => hi.2 (Or.inr h)⟩

theorem notSeenCount_le_length (n : Nat) (seen : List Nat) :
    notSeenCount n seen ≤ n := by
  calc notSeenCount n seen ≤ (Finset.range n).card := Finset.card_filter_le _ _
    _ = n := Finset.card_range n

/-- A lookup in a dead package reference finds nothing, with any fuel. -/
theorem lookup_symbol1_invalid (st : St) (name : String) (f : Nat) (p : Nat)
    (seen : List Nat) (hp : st.pkgs[p]? = none) :
    lookup_symbol1 st name f p seen = (none, LStatus.inherited) := by
  cases f with
  | zero => rfl
  | succ g => simp [lookup_symbol1, hp]

/-! ### Termination of the C recursion: the result is fuel-independent once
the fuel exceeds the number of packages not yet in `seen`. -/

mutual

theorem lookup_symbol1_stable (st : St) (name : String) (f1 f2 : Nat)
    (pkgId : Nat) (seen : List Nat)
    (h1 : notSeenCount st.pkgs.length seen + 1 ≤ f1)
    (h2 : notSeenCount st.pkgs.length seen + 1 ≤ f2) :
    lookup_symbol1 st name f1 pkgId seen
      = lookup_symbol1 st name f2 pkgId seen := by
  obtain ⟨g1, rfl⟩ : ∃ g, f1 = g + 1 := ⟨f1 - 1, by omega⟩
  obtain ⟨g2, rfl⟩ : ∃ g, f2 = g + 1 := ⟨f2 - 1, by omega⟩
  simp only [lookup_symbol1]
  split
  · rfl
  · split
    · rfl
    · rw [lookup_use_list_stable st name g1 g2 _ seen (by omega) (by omega)]
termination_by (f1 + f2, 0)

theorem lookup_use_list_stable (st : St) (name : String) (g1 g2 : Nat)
    (uses : List Nat) (seen : List Nat)
    (h1 : notSeenCount st.pkgs.length seen ≤ g1)
    (h2 : notSeenCount st.pkgs.length seen ≤ g2) :
    lookup_use_list (lookup_symbol1 st name g1) uses seen
      = lookup_use_list (lookup_symbol1 st name g2) uses seen := by
  match uses with
  | [] => rfl
  | u :: rest =>
    simp only [lookup_use_list]
    by_cases hu : u ∈ seen
    · rw [if_pos hu, if_pos hu]
      exact lookup_use_list_stable st name g1 g2 rest seen h1 h2
    · rw [if_neg hu, if_neg hu]
      cases hv : st.pkgs[u]? with
      | none =>
        rw [lookup_symbol1_invalid st name g1 u (u :: seen) hv,
          lookup_symbol1_invalid st name g2 u (u :: seen) hv]
        exact lookup_use_list_stable st name g1 g2 rest (u :: seen)
          (le_trans (notSeenCount_cons_le _ u seen) h1)
          (le_trans (notSeenCount_cons_le _ u seen) h2)
      | some pkg =>
        have hlt := notSeenCount_cons_lt st.pkgs.length u seen
          (lt_length_of_getElem_opt hv) hu
        rw [lookup_symbol1_stable st name g1 g2 u (u :: seen)
          (by omega) (by omega)]
        cases (lookup_symbol1 st name g2 u (u :: seen)).1 with
        | some s => rfl
        | none =>
          exact lookup_use_list_stable st name g1 g2 rest (u :: seen)
            (le_trans (notSeenCount_cons_le _ u seen) h1)
            (le_trans (notSeenCount_cons_le _ u seen) h2)
termination_by (g1 + g2, uses.length + 1)

end

/-- One-step unfolding of `lookup_symbol1` at a successor fuel. -/
theorem lookup_symbol1_succ (st : St) (name : String) (f pkgId : Nat)
    (seen : List Nat) :
    lookup_symbol1 st name (f + 1) pkgId seen =
      match st.pkgs[pkgId]? with
      | none => (none, LStatus.inherited)
      | some pkg =>
        match lookup_local_entry st name pkg with
        | some e => (some e.1, PStatus.toL e.2)
        | none =>
          (lookup_use_list (lookup_symbol1 st name f) pkg.use_list seen,
           LStatus.inherited) := rfl

/-! ### The `seen` list is never revisited by the recursion it guards. -/

mutual

theorem lookup_symbol1_visits_not_seen (st : St) (name : String) (fuel : Nat)
    (pkgId : Nat) (seen : List Nat) (q : Nat)
    (hq : q ∈ lookup_symbol1_visits st name fuel pkgId seen) :
    q = pkgId ∨ q ∉ seen := by
  match fuel with
  | 0 => simp [lookup_symbol1_visits] at hq
  | fuel + 1 =>
    simp only [lookup_symbol1_visits] at hq
    split at hq
    · simp at hq
    · split at hq
      · simp at hq
        exact Or.inl hq
      · rcases List.mem_cons.mp hq with h | h
        · exact Or.inl h
        · exact Or.inr
            (lookup_use_list_visits_not_seen st name fuel _ seen q h)
termination_by (fuel, 0)

theorem lookup_use_list_visits_not_seen (st : St) (name : String) (fuel : Nat)
    (uses : List Nat) (seen : List Nat) (q : Nat)
    (hq : q ∈ lookup_use_list_visits (lookup_symbol1 st name fuel)
      (lookup_symbol1_visits st name fuel) uses seen) :
    q ∉ seen := by
  match uses with
  | [] => simp [lookup_use_list_visits] at hq
  | u :: rest =>
    simp only [lookup_use_list_visits] at hq
    by_cases hu : u ∈ seen
    · rw [if_pos hu] at hq
      exact lookup_use_list_visits_not_seen st name fuel rest seen q hq
    · rw [if_neg hu] at hq
      split at hq
      · rcases lookup_symbol1_visits_not_seen st name fuel u (u :: seen) q hq
          with h | h
        · intro hqs
          exact hu (h ▸ hqs)
        · intro hqs
          exact h (List.mem_cons_of_mem u hqs)
      · rcases List.mem_append.mp hq with h | h
        · rcases lookup_symbol1_visits_not_seen st name fuel u (u :: seen) q h
            with h2 | h2
          · intro hqs
            exact hu (h2 ▸ hqs)
          · intro hqs
            exact h2 (List.mem_cons_of_mem u hqs)
        · intro hqs
          exact lookup_use_list_visits_not_seen st name fuel rest (u :: seen) q h
            (List.mem_cons_of_mem u hqs)
termination_by (fuel, uses.length + 1)

end

/-- In a two-package cycle (each package using the other) a name present in
neither package's own table resolves to absent, with the `:inherited`
placeholder the C code leaves in the status cell. -/
theorem lookup_cyclic_pair_absent (st : St) (name : String) (a b : Nat)
    (pA pB : Package)
    (hpa : st.pkgs[a]? = some pA) (hpb : st.pkgs[b]? = some pB)
    (hab : a ≠ b)
    (hua : pA.use_list = [b]) (hub : pB.use_list = [a])
    (hla : lookup_local_entry st name pA = none)
    (hlb : lookup_local_entry st name pB = none) :
    lookup_symbol st name a = (none, LStatus.inherited) := by
  have ha := lt_length_of_getElem_opt hpa
  have hb := lt_length_of_getElem_opt hpb
  obtain ⟨m, hm⟩ : ∃ m, st.pkgs.length = m + 2 :=
    ⟨st.pkgs.length - 2, by omega⟩
  have hm1 : b ∉ ([] : List Nat) := List.not_mem_nil b
  have hm2 : a ∉ [b] := by simp [hab]
  have hm3 : b ∈ [a, b] := by simp
  unfold lookup_symbol
  rw [hm]
  rw [show m + 2 + 1 = m + 1 + 1 + 1 from rfl]
  simp only [lookup_symbol1, lookup_use_list, hpa, hpb, hla, hlb, hua, hub,
    if_neg hm1, if_neg hm2, if_pos hm3]

/-- A lookup hits the head entry of the package's own table when its key
symbol bears the looked-up name. -/
theorem lookup_symbol_local_head (st : St) (name : String) (pkgId n0 : Nat)
    (pst : PStatus) (pkg1 : Package) (tl : List (Nat × PStatus))
    (hp : st.pkgs[pkgId]? = some pkg1)
    (hsyms : pkg1.symbols = (n0, pst) :: tl)
    (hname : symName st n0 = name) :
    lookup_symbol st name pkgId = (some n0, PStatus.toL pst) := by
  have hloc : lookup_local_entry st name pkg1 = some (n0, pst) := by
    unfold lookup_local_entry
    rw [hsyms]
    apply List.find?_cons_of_pos
    simp [hname]
  unfold lookup_symbol
  rw [lookup_symbol1_succ, hp]
  simp [hloc]

/-- Interning a name that is not yet accessible: the resulting state,
symbol id and status, fully described.  The fresh symbol is appended to the
symbol heap (id = the previous heap size), its home is the package, and the
package's table gains the entry at the head.  In the keyword package the
symbol is additionally marked self-evaluating, constant and declared
special, and the stored status is `:external` instead of `:internal`. -/
theorem pkg_intern_symbol_not_found (st : St) (name : String) (pkgId : Nat)
    (pkg0 : Package) (hpkg : st.pkgs[pkgId]? = some pkg0)
    (hnf : (lookup_symbol st name pkgId).1 = none) :
    pkg_intern_symbol st name pkgId =
      (if pkgId = st.keyword_package then
        { st with
            syms := st.syms ++
              [{ name := name, pkg := some pkgId, selfEvaluating := true,
                 isConstant := true, declared_special := true }],
            pkgs := st.pkgs.set pkgId
              { pkg0 with symbols :=
                  (st.syms.length, PStatus.external) :: pkg0.symbols } }
       else
        { st with
            syms := st.syms ++
              [{ name := name, pkg := some pkgId, selfEvaluating := false,
                 isConstant := false, declared_special := false }],
            pkgs := st.pkgs.set pkgId
              { pkg0 with symbols :=
                  (st.syms.length, PStatus.internal) :: pkg0.symbols } },
       st.syms.length,
       if pkgId = st.keyword_package then LStatus.external
       else LStatus.internal) := by
  by_cases hkw : pkgId = st.keyword_package
  · subst hkw
    simp [pkg_intern_symbol, pkg_intern_symbol1, hnf, setSym, setPkg,
      pkg_add_symbol, List.getElem?_concat_length, set_concat, hpkg]
  · simp [pkg_intern_symbol, pkg_intern_symbol1, hnf, setSym, setPkg,
      pkg_add_symbol, List.getElem?_concat_length, set_concat, hpkg, hkw]

theorem getElem_opt_set_self {α : Type} (l : List α) (i : Nat) (a : α)
    (h : i < l.length) : (l.set i a)[i]? = some a := by
  simp [List.getElem?_set_self, h]

theorem getElem_opt_set_ne {α : Type} (l : List α) (i j : Nat) (a : α)
    (h : i ≠ j) : (l.set i a)[j]? = l[j]? := by
  rw [List.getElem?_set_ne h]

theorem setSym_pkgs (st : St) (i : Nat) (f : Symbol → Symbol) :
    (setSym st i f).pkgs = st.pkgs := by
  unfold setSym
  split <;> rfl

theorem setSym_keyword (st : St) (i : Nat) (f : Symbol → Symbol) :
    (setSym st i f).keyword_package = st.keyword_package := by
  unfold setSym
  split <;> rfl

theorem setPkg_syms (st : St) (i : Nat) (f : Package → Package) :
    (setPkg st i f).syms = st.syms := by
  unfold setPkg
  split <;> rfl

theorem setPkg_keyword (st : St) (i : Nat) (f : Package → Package) :
    (setPkg st i f).keyword_package = st.keyword_package := by
  unfold setPkg
  split <;> rfl

theorem symName_eq_of_syms_eq (st1 st2 : St) (h : st1.syms = st2.syms)
    (i : Nat) : symName st1 i = symName st2 i := by
  unfold symName
  rw [h]

theorem symHome_eq_of_syms_eq (st1 st2 : St) (h : st1.syms = st2.syms)
    (i : Nat) : symHome st1 i = symHome st2 i := by
  unfold symHome
  rw [h]

/-- Updating a symbol with a name-preserving function does not change any
symbol's name. -/
theorem symName_setSym (st : St) (i j : Nat) (f : Symbol → Symbol)
    (hf : ∀ s, (f s).name = s.name) :
    symName (setSym st i f) j = symName st j := by
  unfold setSym
  cases hs : st.syms[i]? with
  | none => rfl
  | some s =>
    unfold symName
    by_cases hij : j = i
    · subst hij
      rw [getElem_opt_set_self st.syms j (f s) (lt_length_of_getElem_opt hs),
        hs]
      simp [hf]
    · rw [getElem_opt_set_ne st.syms i j (f s) (fun h => hij h.symm)]

/-- `Ffind_symbol` in terms of the underlying lookup. -/
theorem Ffind_symbol_eq (st : St) (name : String) (pkgId : Nat) :
    Ffind_symbol st name pkgId =
      match (lookup_symbol st name pkgId).1 with
      | none => none
      | some s => some (s, (lookup_symbol st name pkgId).2) := by
  unfold Ffind_symbol
  rcases lookup_symbol st name pkgId with ⟨x, y⟩
  cases x <;> rfl

/-- Interning a name that is already accessible returns the symbol found,
with its reported status, and leaves the state untouched. -/
theorem pkg_intern_symbol_found (st : St) (name : String) (pkgId s : Nat)
    (hf : (lookup_symbol st name pkgId).1 = some s) :
    pkg_intern_symbol st name pkgId
      = (st, s, (lookup_symbol st name pkgId).2) := by
  simp [pkg_intern_symbol, pkg_intern_symbol1, hf]

/-- After a fresh intern, looking the name up again hits the new local
entry: same symbol, stored status. -/
theorem lookup_after_intern_not_found (st : St) (name : String) (pkgId : Nat)
    (pkg0 : Package) (hpkg : st.pkgs[pkgId]? = some pkg0)
    (hnf : (lookup_symbol st name pkgId).1 = none) :
    lookup_symbol (pkg_intern_symbol st name pkgId).1 name pkgId =
      (some st.syms.length,
       if pkgId = st.keyword_package then LStatus.external
       else LStatus.internal) := by
  have hd := pkg_intern_symbol_not_found st name pkgId pkg0 hpkg hnf
  have hlen : pkgId < st.pkgs.length := lt_length_of_getElem_opt hpkg
  by_cases hkw : pkgId = st.keyword_package
  · rw [hd, if_pos hkw, if_pos hkw]
    apply lookup_symbol_local_head _ _ _ _ PStatus.external _ pkg0.symbols
    · exact getElem_opt_set_self st.pkgs pkgId _ hlen
    · rfl
    · simp [symName, List.getElem?_concat_length]
  · rw [hd, if_neg hkw, if_neg hkw]
    apply lookup_symbol_local_head _ _ _ _ PStatus.internal _ pkg0.symbols
    · exact getElem_opt_set_self st.pkgs pkgId _ hlen
    · rfl
    · simp [symName, List.getElem?_concat_length]

/-- A lookup that reports a status other than `:inherited` found the name
in the package's own table. -/
theorem lookup_status_not_inherited (st : St) (name : String) (pkgId : Nat)
    (h : (lookup_symbol st name pkgId).2 ≠ LStatus.inherited) :
    ∃ pkg e, st.pkgs[pkgId]? = some pkg
      ∧ lookup_local_entry st name pkg = some e
      ∧ lookup_symbol st name pkgId = (some e.1, PStatus.toL e.2) := by
  unfold lookup_symbol at h ⊢
  rw [lookup_symbol1_succ] at h ⊢
  split at h
  · simp at h
  · rename_i pkg heq
    split at h
    · rename_i e heq2
      exact ⟨pkg, e, heq, heq2, rfl⟩
    · simp at h

/-! ### The claims -/

/-- Claim C1: when package `A` uses package `B` and a name is present in
`B`'s own table (as `intern` leaves it) but not locally in `A`, a lookup in
`A` returns `B`'s symbol with status `:inherited` regardless of the status
stored in `B` (the recursive searches pass no status cell, so the nested
status is discarded), while a local-only lookup in `A` returns absent. -/
theorem claim_C1 (st : St) (name : String) (a b s : Nat)
    (pA pB : Package) (pst : PStatus)
    (hpa : st.pkgs[a]? = some pA) (hpb : st.pkgs[b]? = some pB)
    (hua : pA.use_list = [b])
    (hla : lookup_local_entry st name pA = none)
    (hlb : lookup_local_entry st name pB = some (s, pst)) :
    lookup_symbol st name a = (some s, LStatus.inherited)
      ∧ lookup_local st name a = none := by
  constructor
  · have ha := lt_length_of_getElem_opt hpa
    obtain ⟨m, hm⟩ : ∃ m, st.pkgs.length = m + 1 :=
      ⟨st.pkgs.length - 1, by omega⟩
    unfold lookup_symbol
    rw [hm]
    simp [lookup_symbol1, lookup_use_list, hpa, hla, hua, hpb, hlb]
  · simp [lookup_local, hpa, hla]

/-- Witness for C1 on the concrete two-package state. -/
theorem claim_C1_witness :
    lookup_symbol stC1 "x" 0 = (some 0, LStatus.inherited)
      ∧ lookup_local stC1 "x" 0 = none :=
  claim_C1 stC1 "x" 0 1 0 pkgAuses1 pkgBwithX PStatus.internal
    rfl rfl rfl rfl rfl

/-- Claim C4: for two packages each using the other, looking up a name
present in neither terminates with absent (the status cell is left holding
the `:inherited` placeholder, which `Ffind_symbol` discards); and in
general the seen-guarded recursion is fuel-independent once the fuel
reaches the number of packages plus one, i.e. the recursion of
`lookup_symbol1` terminates on every use-list graph. -/
theorem claim_C4 (st : St) (name : String) (a b : Nat) (pA pB : Package)
    (f1 f2 pkgId : Nat) (seen : List Nat)
    (hpa : st.pkgs[a]? = some pA) (hpb : st.pkgs[b]? = some pB)
    (hab : a ≠ b) (hua : pA.use_list = [b]) (hub : pB.use_list = [a])
    (hla : lookup_local_entry st name pA = none)
    (hlb : lookup_local_entry st name pB = none)
    (hf1 : st.pkgs.length + 1 ≤ f1) (hf2 : st.pkgs.length + 1 ≤ f2) :
    lookup_symbol st name a = (none, LStatus.inherited)
      ∧ lookup_symbol1 st name f1 pkgId seen
          = lookup_symbol1 st name f2 pkgId seen := by
  constructor
  · exact lookup_cyclic_pair_absent st name a b pA pB hpa hpb hab hua hub
      hla hlb
  · exact lookup_symbol1_stable st name f1 f2 pkgId seen
      (by have := notSeenCount_le_length st.pkgs.length seen; omega)
      (by have := notSeenCount_le_length st.pkgs.length seen; omega)

/-- Witness for C4 on the concrete two-package cycle. -/
theorem claim_C4_witness :
    lookup_symbol stC4 "missing" 0 = (none, LStatus.inherited)
      ∧ lookup_symbol1 stC4 "missing" 3 0 []
          = lookup_symbol1 stC4 "missing" 7 0 [] :=
  claim_C4 stC4 "missing" 0 1 pkgCycA pkgCycB 3 7 0 []
    rfl rfl (by decide) rfl rfl rfl rfl (by decide) (by decide)

/-- Claim C2: interning the same name twice into the same (live) package
returns the identical symbol both times and the second call leaves the
whole state unchanged; moreover, when the name is already accessible
(locally or via inheritance), intern returns that symbol and the untouched
state, with the status the lookup reported (no promotion of an inherited
visibility). -/
theorem claim_C2 (st : St) (name : String) (pkgId : Nat) (pkg0 : Package)
    (hpkg : st.pkgs[pkgId]? = some pkg0) :
    (pkg_intern_symbol (pkg_intern_symbol st name pkgId).1 name pkgId).1
        = (pkg_intern_symbol st name pkgId).1
      ∧ (pkg_intern_symbol (pkg_intern_symbol st name pkgId).1 name pkgId).2.1
        = (pkg_intern_symbol st name pkgId).2.1
      ∧ (∀ s, (lookup_symbol st name pkgId).1 = some s →
          pkg_intern_symbol st name pkgId
            = (st, s, (lookup_symbol st name pkgId).2)) := by
  obtain ⟨hA, hB⟩ :
      (pkg_intern_symbol (pkg_intern_symbol st name pkgId).1 name pkgId).1
          = (pkg_intern_symbol st name pkgId).1
        ∧ (pkg_intern_symbol (pkg_intern_symbol st name pkgId).1 name pkgId).2.1
          = (pkg_intern_symbol st name pkgId).2.1 := by
    cases hl : (lookup_symbol st name pkgId).1 with
    | some s =>
      have h1 := pkg_intern_symbol_found st name pkgId s hl
      simp [h1]
    | none =>
      have h1 := pkg_intern_symbol_not_found st name pkgId pkg0 hpkg hl
      have h2 := lookup_after_intern_not_found st name pkgId pkg0 hpkg hl
      have h3 := pkg_intern_symbol_found (pkg_intern_symbol st name pkgId).1
        name pkgId st.syms.length (by rw [h2])
      rw [h3]
      constructor
      · rfl
      · rw [h1]
  exact ⟨hA, hB, fun s hs => pkg_intern_symbol_found st name pkgId s hs⟩

/-- Witness for C2 on a one-package state. -/
theorem claim_C2_witness :
    (pkg_intern_symbol (pkg_intern_symbol stOnePkg "n" 0).1 "n" 0).1
        = (pkg_intern_symbol stOnePkg "n" 0).1
      ∧ (pkg_intern_symbol (pkg_intern_symbol stOnePkg "n" 0).1 "n" 0).2.1
        = (pkg_intern_symbol stOnePkg "n" 0).2.1
      ∧ (∀ s, (lookup_symbol stOnePkg "n" 0).1 = some s →
          pkg_intern_symbol stOnePkg "n" 0
            = (stOnePkg, s, (lookup_symbol stOnePkg "n" 0).2)) :=
  claim_C2 stOnePkg "n" 0 pkgPlain rfl

/-- Claim C3: interning a name that is not yet accessible creates a fresh
symbol (the next heap id, previously dead), names it, makes the package its
home, stores it in the package's own table with status `:external` when the
package is the keyword package (also marking it self-evaluating, constant
and declared-special) and `:internal` otherwise, and a subsequent lookup
returns that same symbol with that status. -/
theorem claim_C3 (st : St) (name : String) (pkgId : Nat) (pkg0 : Package)
    (hpkg : st.pkgs[pkgId]? = some pkg0)
    (hnf : (lookup_symbol st name pkgId).1 = none) :
    (pkg_intern_symbol st name pkgId).2.1 = st.syms.length
      ∧ st.syms[st.syms.length]? = none
      ∧ symName (pkg_intern_symbol st name pkgId).1 st.syms.length = name
      ∧ symHome (pkg_intern_symbol st name pkgId).1 st.syms.length
          = some pkgId
      ∧ (pkg_intern_symbol st name pkgId).2.2
          = (if pkgId = st.keyword_package then LStatus.external
             else LStatus.internal)
      ∧ (pkgId = st.keyword_package →
          (pkg_intern_symbol st name pkgId).1.syms[st.syms.length]?
            = some { name := name, pkg := some pkgId, selfEvaluating := true,
                     isConstant := true, declared_special := true })
      ∧ (pkgId ≠ st.keyword_package →
          (pkg_intern_symbol st name pkgId).1.syms[st.syms.length]?
            = some { name := name, pkg := some pkgId, selfEvaluating := false,
                     isConstant := false, declared_special := false })
      ∧ (pkg_intern_symbol st name pkgId).1.pkgs[pkgId]?
          = some { pkg0 with symbols :=
              (st.syms.length,
               if pkgId = st.keyword_package then PStatus.external
               else PStatus.internal) :: pkg0.symbols }
      ∧ lookup_symbol (pkg_intern_symbol st name pkgId).1 name pkgId
          = (some st.syms.length,
             if pkgId = st.keyword_package then LStatus.external
             else LStatus.internal) := by
  have hd := pkg_intern_symbol_not_found st name pkgId pkg0 hpkg hnf
  have hlen := lt_length_of_getElem_opt hpkg
  refine ⟨by rw [hd], List.getElem?_eq_none (Nat.le_refl _), ?_, ?_,
    by rw [hd], ?_, ?_, ?_,
    lookup_after_intern_not_found st name pkgId pkg0 hpkg hnf⟩
  · rw [hd]
    by_cases hkw : pkgId = st.keyword_package
    · rw [if_pos hkw]
      simp [symName, List.getElem?_concat_length]
    · rw [if_neg hkw]
      simp [symName, List.getElem?_concat_length]
  · rw [hd]
    by_cases hkw : pkgId = st.keyword_package
    · rw [if_pos hkw]
      simp [symHome, List.getElem?_concat_length]
    · rw [if_neg hkw]
      simp [symHome, List.getElem?_concat_length]
  · intro h
    rw [hd, if_pos h]
    simp [List.getElem?_concat_length]
  · intro h
    rw [hd, if_neg h]
    simp [List.getElem?_concat_length]
  · rw [hd]
    by_cases hkw : pkgId = st.keyword_package
    · simp only [if_pos hkw]
      exact getElem_opt_set_self st.pkgs pkgId _ hlen
    · simp only [if_neg hkw]
      exact getElem_opt_set_self st.pkgs pkgId _ hlen

/-- `remove_shadowing_symbol` on a live package, described. -/
theorem remove_shadowing_symbol_eq (st : St) (symId pkgId : Nat)
    (pkg : Package) (hpkg : st.pkgs[pkgId]? = some pkg) :
    remove_shadowing_symbol st symId pkgId
      = { st with
            pkgs := st.pkgs.set pkgId
              { pkg with shadowing_symbols :=
                  pkg.shadowing_symbols.filter (fun s => s != symId) } } := by
  simp [remove_shadowing_symbol, setPkg, hpkg]

/-- `pkg_remove_symbol` on a live package, described. -/
theorem pkg_remove_symbol_eq (st : St) (symId pkgId : Nat)
    (pkg : Package) (hpkg : st.pkgs[pkgId]? = some pkg) :
    pkg_remove_symbol st symId pkgId
      = { st with
            pkgs := st.pkgs.set pkgId
              { pkg with symbols :=
                  pkg.symbols.filter (fun e =>
                    symName st e.1 != symName st symId) } } := by
  simp [pkg_remove_symbol, setPkg, hpkg]

/-- Nothing that was filtered out by key inequality can be found by key
equality afterwards. -/
theorem find_filter_bne {α β : Type} [BEq β] (l : List α) (f : α → β)
    (b : β) :
    (l.filter (fun a => f a != b)).find? (fun a => f a == b) = none := by
  rw [List.find?_eq_none]
  intro a ha hb
  have hm := (List.mem_filter.mp ha).2
  simp only [bne] at hm
  rw [hb] at hm
  simp at hm

/-- The home-package clearing step at the end of `pkg_unintern_symbol`:
it clears the home exactly when the home was this package. -/
theorem unintern_home_clear (stX : St) (symId pkgId : Nat) :
    (symHome stX symId = some pkgId →
      symHome (if symHome stX symId = some pkgId
               then setSym stX symId (fun s => { s with pkg := none })
               else stX) symId = none)
    ∧ (symHome stX symId ≠ some pkgId →
      (if symHome stX symId = some pkgId
       then setSym stX symId (fun s => { s with pkg := none })
       else stX) = stX) := by
  constructor
  · intro hh
    rw [if_pos hh]
    unfold symHome at hh
    cases hs : stX.syms[symId]? with
    | none =>
      rw [hs] at hh
      exact absurd hh (by simp)
    | some s0 =>
      unfold setSym symHome
      rw [hs]
      simp only
      rw [getElem_opt_set_self _ _ _ (lt_length_of_getElem_opt hs)]
  · intro hh
    rw [if_neg hh]

/-- After the two removal steps of unintern, a local lookup of the removed
name fails, in any state with the same package heap and the same symbol
names. -/
theorem lookup_local_after_remove (st : St) (symId pkgId : Nat)
    (pkg : Package) (hpkg : st.pkgs[pkgId]? = some pkg) (stY : St)
    (hpkgs : stY.pkgs = (pkg_remove_symbol
      (remove_shadowing_symbol st symId pkgId) symId pkgId).pkgs)
    (hnames : ∀ x, symName stY x = symName st x) :
    lookup_local stY (symName st symId) pkgId = none := by
  have hlen := lt_length_of_getElem_opt hpkg
  have eA := remove_shadowing_symbol_eq st symId pkgId pkg hpkg
  have hpkgA : (remove_shadowing_symbol st symId pkgId).pkgs[pkgId]?
      = some { pkg with shadowing_symbols :=
          pkg.shadowing_symbols.filter (fun s => s != symId) } := by
    rw [eA]
    exact getElem_opt_set_self st.pkgs pkgId _ hlen
  have eB := pkg_remove_symbol_eq (remove_shadowing_symbol st symId pkgId)
    symId pkgId _ hpkgA
  have hlenA : pkgId < (remove_shadowing_symbol st symId pkgId).pkgs.length :=
    lt_length_of_getElem_opt hpkgA
  have hnA : ∀ x, symName (remove_shadowing_symbol st symId pkgId) x
      = symName st x :=
    fun x => symName_eq_of_syms_eq _ st (by rw [eA]) x
  unfold lookup_local
  rw [hpkgs, eB]
  dsimp only
  rw [getElem_opt_set_self _ _ _ hlenA]
  unfold lookup_local_entry
  dsimp only
  simp only [hnA, hnames]
  exact find_filter_bne pkg.symbols (fun e => symName st e.1)
    (symName st symId)

/-- After the two removal steps of unintern, the argument symbol is no
longer in the package's shadowing list. -/
theorem shadowing_after_remove (st : St) (symId pkgId : Nat) (pkg : Package)
    (hpkg : st.pkgs[pkgId]? = some pkg) (pkg2 : Package)
    (h2 : (pkg_remove_symbol (remove_shadowing_symbol st symId pkgId) symId
        pkgId).pkgs[pkgId]? = some pkg2) :
    symId ∉ pkg2.shadowing_symbols := by
  have hlen := lt_length_of_getElem_opt hpkg
  have eA := remove_shadowing_symbol_eq st symId pkgId pkg hpkg
  have hpkgA : (remove_shadowing_symbol st symId pkgId).pkgs[pkgId]?
      = some { pkg with shadowing_symbols :=
          pkg.shadowing_symbols.filter (fun s => s != symId) } := by
    rw [eA]
    exact getElem_opt_set_self st.pkgs pkgId _ hlen
  have eB := pkg_remove_symbol_eq (remove_shadowing_symbol st symId pkgId)
    symId pkgId _ hpkgA
  have hlenA : pkgId < (remove_shadowing_symbol st symId pkgId).pkgs.length :=
    lt_length_of_getElem_opt hpkgA
  rw [eB] at h2
  dsimp only at h2
  rw [getElem_opt_set_self _ _ _ hlenA] at h2
  have h3 := (Option.some.injEq _ _).mp h2
  intro hmem
  rw [← h3] at hmem
  dsimp only at hmem
  have hm := (List.mem_filter.mp hmem).2
  simp at hm

/-- The two removal steps of unintern touch no other package. -/
theorem pkgs_after_remove_other (st : St) (symId pkgId q : Nat)
    (pkg : Package) (hpkg : st.pkgs[pkgId]? = some pkg) (hq : q ≠ pkgId) :
    (pkg_remove_symbol (remove_shadowing_symbol st symId pkgId) symId
        pkgId).pkgs[q]? = st.pkgs[q]? := by
  have hlen := lt_length_of_getElem_opt hpkg
  have eA := remove_shadowing_symbol_eq st symId pkgId pkg hpkg
  have hpkgA : (remove_shadowing_symbol st symId pkgId).pkgs[pkgId]?
      = some { pkg with shadowing_symbols :=
          pkg.shadowing_symbols.filter (fun s => s != symId) } := by
    rw [eA]
    exact getElem_opt_set_self st.pkgs pkgId _ hlen
  have eB := pkg_remove_symbol_eq (remove_shadowing_symbol st symId pkgId)
    symId pkgId _ hpkgA
  rw [eB]
  dsimp only
  rw [getElem_opt_set_ne _ pkgId q _ (fun h => hq h.symm), eA]
  dsimp only
  rw [getElem_opt_set_ne _ pkgId q _ (fun h => hq h.symm)]

/-- The syms heap is untouched by the two removal steps of unintern. -/
theorem syms_after_remove (st : St) (symId pkgId : Nat) :
    (pkg_remove_symbol (remove_shadowing_symbol st symId pkgId) symId
        pkgId).syms = st.syms := by
  unfold pkg_remove_symbol remove_shadowing_symbol
  rw [setPkg_syms, setPkg_syms]

/-- Witness for C3: interning a fresh keyword and a fresh ordinary
symbol. -/
theorem claim_C3_witness :
    ((pkg_intern_symbol stBoot "k" 1).2.1 = stBoot.syms.length
      ∧ lookup_symbol (pkg_intern_symbol stBoot "k" 1).1 "k" 1
          = (some stBoot.syms.length,
             if 1 = stBoot.keyword_package then LStatus.external
             else LStatus.internal))
    ∧ ((pkg_intern_symbol stBoot "n" 0).2.2
        = (if 0 = stBoot.keyword_package then LStatus.external
           else LStatus.internal)) := by
  have h1 := claim_C3 stBoot "k" 1 pkgKeyword rfl (by decide)
  have h2 := claim_C3 stBoot "n" 0 pkgEmacs rfl (by decide)
  exact ⟨⟨h1.1, h1.2.2.2.2.2.2.2.2⟩, h2.2.2.2.2.1⟩

/-- Full specification of `pkg_unintern_symbol`, with the resolved package
id abstracted. -/
theorem pkg_unintern_symbol_spec (st : St) (symId pkgId : Nat)
    (package : Option Nat)
    (hpid : package.getD st.current_package = pkgId) :
    ((pkg_unintern_symbol st symId package).2 = true ↔
        ((lookup_symbol st (symName st symId) pkgId).1 ≠ none
          ∧ (lookup_symbol st (symName st symId) pkgId).2
              ≠ LStatus.inherited))
      ∧ ((pkg_unintern_symbol st symId package).2 = true →
          lookup_local (pkg_unintern_symbol st symId package).1
              (symName st symId) pkgId = none
            ∧ (∀ pkg2,
                (pkg_unintern_symbol st symId package).1.pkgs[pkgId]?
                    = some pkg2 →
                  symId ∉ pkg2.shadowing_symbols))
      ∧ (symHome st symId = some pkgId →
          symHome (pkg_unintern_symbol st symId package).1 symId = none)
      ∧ (symHome st symId ≠ some pkgId →
          symHome (pkg_unintern_symbol st symId package).1 symId
            = symHome st symId)
      ∧ (∀ q, q ≠ pkgId →
          (pkg_unintern_symbol st symId package).1.pkgs[q]? = st.pkgs[q]?) := by
  by_cases hrem : (lookup_symbol st (symName st symId) pkgId).1 ≠ none
      ∧ (lookup_symbol st (symName st symId) pkgId).2 ≠ LStatus.inherited
  · obtain ⟨pkg, e, hpkg, hloc, hlk⟩ := lookup_status_not_inherited st
      (symName st symId) pkgId hrem.2
    have hb2 : (PStatus.toL e.2 != LStatus.inherited) = true := by
      cases e.2 <;> rfl
    have hbT : ((lookup_symbol st (symName st symId) pkgId).1.isSome
        && ((lookup_symbol st (symName st symId) pkgId).2
            != LStatus.inherited)) = true := by
      rw [hlk]
      simp [hb2]
    have hres : pkg_unintern_symbol st symId package
        = (if symHome (pkg_remove_symbol (remove_shadowing_symbol st symId
              pkgId) symId pkgId) symId = some pkgId
           then setSym (pkg_remove_symbol (remove_shadowing_symbol st symId
              pkgId) symId pkgId) symId (fun s => { s with pkg := none })
           else pkg_remove_symbol (remove_shadowing_symbol st symId pkgId)
              symId pkgId,
           true) := by
      unfold pkg_unintern_symbol
      simp only [hpid, hbT, if_true]
    have hsB : symHome (pkg_remove_symbol (remove_shadowing_symbol st symId
        pkgId) symId pkgId) symId = symHome st symId :=
      symHome_eq_of_syms_eq _ st (syms_after_remove st symId pkgId) symId
    have hhc := unintern_home_clear (pkg_remove_symbol
      (remove_shadowing_symbol st symId pkgId) symId pkgId) symId pkgId
    refine ⟨?_, ?_, ?_, ?_, ?_⟩
    · rw [hres]
      exact iff_of_true rfl hrem
    · intro _
      constructor
      · rw [hres]
        by_cases hh : symHome (pkg_remove_symbol (remove_shadowing_symbol st
            symId pkgId) symId pkgId) symId = some pkgId
        · rw [if_pos hh]
          apply lookup_local_after_remove st symId pkgId pkg hpkg
          · rw [setSym_pkgs]
          · intro x
            exact (symName_setSym _ symId x
              (fun s => { s with pkg := none }) (fun s => rfl)).trans
              (symName_eq_of_syms_eq _ st (syms_after_remove st symId pkgId) x)
        · rw [if_neg hh]
          apply lookup_local_after_remove st symId pkgId pkg hpkg
          · rfl
          · intro x
            exact symName_eq_of_syms_eq _ st (syms_after_remove st symId pkgId) x
      · intro pkg2 h2
        rw [hres] at h2
        apply shadowing_after_remove st symId pkgId pkg hpkg pkg2
        by_cases hh : symHome (pkg_remove_symbol (remove_shadowing_symbol st
            symId pkgId) symId pkgId) symId = some pkgId
        · rw [if_pos hh] at h2
          rw [← setSym_pkgs (pkg_remove_symbol (remove_shadowing_symbol st
            symId pkgId) symId pkgId) symId (fun s => { s with pkg := none })]
          exact h2
        · rw [if_neg hh] at h2
          exact h2
    · intro hh
      rw [hres]
      exact hhc.1 (hsB.trans hh)
    · intro hh
      rw [hres]
      have hcond : symHome (pkg_remove_symbol (remove_shadowing_symbol st
          symId pkgId) symId pkgId) symId ≠ some pkgId := by
        rw [hsB]
        exact hh
      show symHome (if symHome (pkg_remove_symbol (remove_shadowing_symbol st
          symId pkgId) symId pkgId) symId = some pkgId
        then setSym (pkg_remove_symbol (remove_shadowing_symbol st symId
          pkgId) symId pkgId) symId (fun s => { s with pkg := none })
        else pkg_remove_symbol (remove_shadowing_symbol st symId pkgId)
          symId pkgId) symId = symHome st symId
      rw [hhc.2 hcond]
      exact hsB
    · intro q hq
      rw [hres]
      show (if symHome (pkg_remove_symbol (remove_shadowing_symbol st symId
          pkgId) symId pkgId) symId = some pkgId
        then setSym (pkg_remove_symbol (remove_shadowing_symbol st symId
          pkgId) symId pkgId) symId (fun s => { s with pkg := none })
        else pkg_remove_symbol (remove_shadowing_symbol st symId pkgId)
          symId pkgId).pkgs[q]? = st.pkgs[q]?
      by_cases hh : symHome (pkg_remove_symbol (remove_shadowing_symbol st
          symId pkgId) symId pkgId) symId = some pkgId
      · rw [if_pos hh, setSym_pkgs]
        exact pkgs_after_remove_other st symId pkgId q pkg hpkg hq
      · rw [if_neg hh]
        exact pkgs_after_remove_other st symId pkgId q pkg hpkg hq
  · have hbF : ((lookup_symbol st (symName st symId) pkgId).1.isSome
        && ((lookup_symbol st (symName st symId) pkgId).2
            != LStatus.inherited)) = false := by
      rcases not_and_or.mp hrem with h | h
      · have h2 : (lookup_symbol st (symName st symId) pkgId).1 = none :=
          not_not.mp h
        simp [h2]
      · have h2 : (lookup_symbol st (symName st symId) pkgId).2
            = LStatus.inherited := not_not.mp h
        simp [h2]
    have hres : pkg_unintern_symbol st symId package
        = (if symHome st symId = some pkgId
           then setSym st symId (fun s => { s with pkg := none })
           else st,
           false) := by
      unfold pkg_unintern_symbol
      simp only [hpid, hbF, Bool.false_eq_true, if_false]
    have hhc := unintern_home_clear st symId pkgId
    refine ⟨?_, ?_, ?_, ?_, ?_⟩
    · rw [hres]
      exact iff_of_false (by simp) hrem
    · intro h
      rw [hres] at h
      simp at h
    · intro hh
      rw [hres]
      exact hhc.1 hh
    · intro hh
      rw [hres]
      show symHome (if symHome st symId = some pkgId
        then setSym st symId (fun s => { s with pkg := none })
        else st) symId = symHome st symId
      rw [hhc.2 hh]
    · intro q hq
      rw [hres]
      show (if symHome st symId = some pkgId
        then setSym st symId (fun s => { s with pkg := none })
        else st).pkgs[q]? = st.pkgs[q]?
      by_cases hh : symHome st symId = some pkgId
      · rw [if_pos hh, setSym_pkgs]
      · rw [if_neg hh]

/-- Claim C5: unintern returns true exactly when a symbol with the
argument's name is found in the package with a status other than
`:inherited`; in that case the entry is removed from the package's
shadowing list and symbol table; regardless of the outcome, the symbol's
home-package reference is cleared exactly when it names this package, and
no other package's table is modified. -/
theorem claim_C5 (st : St) (symId : Nat) (package : Option Nat) :
    ((pkg_unintern_symbol st symId package).2 = true ↔
        ((lookup_symbol st (symName st symId)
            (package.getD st.current_package)).1 ≠ none
          ∧ (lookup_symbol st (symName st symId)
              (package.getD st.current_package)).2 ≠ LStatus.inherited))
      ∧ ((pkg_unintern_symbol st symId package).2 = true →
          lookup_local (pkg_unintern_symbol st symId package).1
              (symName st symId) (package.getD st.current_package) = none
            ∧ (∀ pkg2,
                (pkg_unintern_symbol st symId
                    package).1.pkgs[(package.getD st.current_package)]?
                    = some pkg2 →
                  symId ∉ pkg2.shadowing_symbols))
      ∧ (symHome st symId = some (package.getD st.current_package) →
          symHome (pkg_unintern_symbol st symId package).1 symId = none)
      ∧ (symHome st symId ≠ some (package.getD st.current_package) →
          symHome (pkg_unintern_symbol st symId package).1 symId
            = symHome st symId)
      ∧ (∀ q, q ≠ package.getD st.current_package →
          (pkg_unintern_symbol st symId package).1.pkgs[q]? = st.pkgs[q]?) :=
  pkg_unintern_symbol_spec st symId (package.getD st.current_package)
    package rfl

/-- Witness for C5: uninterning the interned symbol `x` from its home
package. -/
theorem claim_C5_witness :
    (pkg_unintern_symbol stC5 0 (some 0)).2 = true
      ∧ lookup_local (pkg_unintern_symbol stC5 0 (some 0)).1
          (symName stC5 0) ((some 0).getD stC5.current_package) = none
      ∧ symHome (pkg_unintern_symbol stC5 0 (some 0)).1 0 = none := by
  have h := claim_C5 stC5 0 (some 0)
  have hrem : (pkg_unintern_symbol stC5 0 (some 0)).2 = true :=
    h.1.mpr ⟨by decide, by decide⟩
  exact ⟨hrem, (h.2.1 hrem).1, h.2.2.1 (by decide)⟩

/-- Claim C6: qualified resolution against the keyword package never
fails; when the name is not yet accessible a fresh keyword symbol is
created on the spot — self-evaluating, constant, declared-special, stored
with status `:external` — and resolving the same name again returns that
identical symbol with the state unchanged. -/
theorem claim_C6 (st : St) (name : String) (external1 external2 : Bool)
    (pkg0 : Package) (hpkg : st.pkgs[st.keyword_package]? = some pkg0)
    (hnf : (lookup_symbol st name st.keyword_package).1 = none) :
    (∀ (st2 : St) (nm : String) (e : Bool), ∃ r,
        pkg_qualified_symbol st2 nm st2.keyword_package e = Except.ok r)
      ∧ pkg_qualified_symbol st name st.keyword_package external1
          = Except.ok ((pkg_intern_symbol st name st.keyword_package).1,
              st.syms.length)
      ∧ (pkg_intern_symbol st name
            st.keyword_package).1.syms[st.syms.length]?
          = some { name := name, pkg := some st.keyword_package,
                   selfEvaluating := true, isConstant := true,
                   declared_special := true }
      ∧ (pkg_intern_symbol st name
            st.keyword_package).1.pkgs[st.keyword_package]?
          = some { pkg0 with symbols :=
              (st.syms.length, PStatus.external) :: pkg0.symbols }
      ∧ pkg_qualified_symbol (pkg_intern_symbol st name
            st.keyword_package).1 name st.keyword_package external2
          = Except.ok ((pkg_intern_symbol st name st.keyword_package).1,
              st.syms.length) := by
  have hd := pkg_intern_symbol_not_found st name st.keyword_package pkg0
    hpkg hnf
  have hlen := lt_length_of_getElem_opt hpkg
  have hff : Ffind_symbol st name st.keyword_package = none := by
    rw [Ffind_symbol_eq, hnf]
  have h2 := lookup_after_intern_not_found st name st.keyword_package pkg0
    hpkg hnf
  have hff2 : Ffind_symbol (pkg_intern_symbol st name st.keyword_package).1
      name st.keyword_package
      = some (st.syms.length, LStatus.external) := by
    rw [Ffind_symbol_eq, h2]
    simp
  refine ⟨?_, ?_, ?_, ?_, ?_⟩
  · intro st2 nm e
    simp only [pkg_qualified_symbol, if_true]
    cases hf : Ffind_symbol st2 nm st2.keyword_package with
    | none => exact ⟨_, rfl⟩
    | some p => exact ⟨(st2, p.1), by cases p; rfl⟩
  · simp only [pkg_qualified_symbol, hff, if_true]
    rw [hd]
  · rw [hd]
    simp [List.getElem?_concat_length]
  · rw [hd]
    simp only [if_pos rfl]
    exact getElem_opt_set_self st.pkgs st.keyword_package _ hlen
  · simp only [pkg_qualified_symbol, hff2]
    rw [hd]
    simp

/-- Witness for C6: resolving the fresh keyword `frob` twice. -/
theorem claim_C6_witness :
    pkg_qualified_symbol stBoot "frob" stBoot.keyword_package true
        = Except.ok ((pkg_intern_symbol stBoot "frob"
            stBoot.keyword_package).1, stBoot.syms.length)
      ∧ pkg_qualified_symbol (pkg_intern_symbol stBoot "frob"
            stBoot.keyword_package).1 "frob" stBoot.keyword_package false
          = Except.ok ((pkg_intern_symbol stBoot "frob"
              stBoot.keyword_package).1, stBoot.syms.length) := by
  have h := claim_C6 stBoot "frob" true false pkgKeyword rfl (by decide)
  exact ⟨h.2.1, h.2.2.2.2⟩

/-- Claim C7 (amended): for a non-keyword package, qualified resolution of
an inaccessible name fails unbound-in-package, and an external-only
reference to a symbol whose reported status is `:internal` fails
not-external, while a locally external symbol succeeds; an inherited
symbol, however, always satisfies an external-only reference, regardless
of the status it has in the package it comes from, because the status the
resolution sees is `:inherited`, which is not `:internal`. -/
theorem claim_C7 (st : St) (name : String) (pkgId : Nat) (external : Bool)
    (hnk : pkgId ≠ st.keyword_package) :
    ((lookup_symbol st name pkgId).1 = none →
        pkg_qualified_symbol st name pkgId external
          = Except.error PkgErr.UnboundInPackage)
      ∧ (∀ s, lookup_symbol st name pkgId = (some s, LStatus.internal) →
          pkg_qualified_symbol st name pkgId true
            = Except.error PkgErr.NotExternal)
      ∧ (∀ s, lookup_symbol st name pkgId = (some s, LStatus.external) →
          pkg_qualified_symbol st name pkgId external = Except.ok (st, s))
      ∧ (∀ s, lookup_symbol st name pkgId = (some s, LStatus.inherited) →
          pkg_qualified_symbol st name pkgId true = Except.ok (st, s)) := by
  refine ⟨?_, ?_, ?_, ?_⟩
  · intro h
    have hff : Ffind_symbol st name pkgId = none := by
      rw [Ffind_symbol_eq, h]
    simp [pkg_qualified_symbol, hff, hnk]
  · intro s h
    have hff : Ffind_symbol st name pkgId = some (s, LStatus.internal) := by
      rw [Ffind_symbol_eq, h]
    simp [pkg_qualified_symbol, hff, hnk]
  · intro s h
    have hff : Ffind_symbol st name pkgId = some (s, LStatus.external) := by
      rw [Ffind_symbol_eq, h]
    simp [pkg_qualified_symbol, hff, hnk]
  · intro s h
    have hff : Ffind_symbol st name pkgId = some (s, LStatus.inherited) := by
      rw [Ffind_symbol_eq, h]
    simp [pkg_qualified_symbol, hff, hnk]

/-- Counterexample to claim C7 as stated: `FOO` is internal in `Q` and
accessible in `P` (which uses `Q`) only via inheritance, yet the
external-only qualified reference in `P` succeeds instead of being
rejected as not-external. -/
theorem claim_C7_counterexample :
    lookup_local stC7 "FOO" 0 = none
      ∧ lookup_symbol stC7 "FOO" 1 = (some 0, LStatus.internal)
      ∧ lookup_symbol stC7 "FOO" 0 = (some 0, LStatus.inherited)
      ∧ pkg_qualified_symbol stC7 "FOO" 0 true = Except.ok (stC7, 0) :=
  ⟨by decide, by decide, by decide, by rfl⟩

/-- Witness for C7 (amended): the two error paths, a locally external
success, and the inherited external-only success. -/
theorem claim_C7_witness :
    pkg_qualified_symbol stC7 "BAR" 0 true
        = Except.error PkgErr.UnboundInPackage
      ∧ pkg_qualified_symbol stC7 "FOO" 1 true
          = Except.error PkgErr.NotExternal
      ∧ pkg_qualified_symbol stC7ext "FOO" 1 false = Except.ok (stC7ext, 0)
      ∧ pkg_qualified_symbol stC7 "FOO" 0 true = Except.ok (stC7, 0) := by
  have h1 := claim_C7 stC7 "BAR" 0 true (by decide)
  have h2 := claim_C7 stC7 "FOO" 1 true (by decide)
  have h3 := claim_C7 stC7ext "FOO" 1 false (by decide)
  have h4 := claim_C7 stC7 "FOO" 0 true (by decide)
  exact ⟨h1.1 (by decide), h2.2.1 0 (by decide), h3.2.2.1 0 (by decide),
    h4.2.2.2 0 (by decide)⟩

/-- Claim C8 (amended): during one resolution the `seen` list is a one-way
guard: every package the use-list traversal visits is absent from the
`seen` list that traversal was given — a package recorded in `seen` is
never searched again below that point — and each recursive call extends
the list by exactly the one package it enters.  The blanket statement of
the claim (no package is ever searched twice in a whole resolution, even
on diamond-shaped graphs) is false; see the counterexample. -/
theorem claim_C8 (st : St) (name : String) (fuel : Nat)
    (uses seen : List Nat) (q : Nat)
    (hq : q ∈ lookup_use_list_visits (lookup_symbol1 st name fuel)
      (lookup_symbol1_visits st name fuel) uses seen) :
    ¬ q ∈ seen :=
  lookup_use_list_visits_not_seen st name fuel uses seen q hq

/-- Counterexample to claim C8 as stated: in a two-package cycle the
starting package is searched twice, and in a diamond (shared ancestor) the
shared ancestor is searched twice — the seen-list additions made inside a
finished branch are not carried over to sibling branches. -/
theorem claim_C8_counterexample :
    (lookup_visits stC8 "missing" 0).count 0 = 2
      ∧ (lookup_visits stC8d "missing" 0).count 3 = 2 :=
  ⟨by decide, by decide⟩

/-- Witness for C8 (amended) on the two-package cycle. -/
theorem claim_C8_witness :
    (1 ∈ lookup_use_list_visits (lookup_symbol1 stC8 "missing" 2)
        (lookup_symbol1_visits stC8 "missing" 2) [1] [0])
      ∧ ¬ (1 : Nat) ∈ [0] :=
  ⟨by decide, claim_C8 stC8 "missing" 2 [1] [0] 1 (by decide)⟩

/-- Claim C9: legacy intern-soft never creates a symbol and performs no
mutation (in this embedding it has no state output at all): it returns
absent when no accessible symbol matches the colon-adjusted name in the
designated package; when the argument is itself a symbol object it returns
absent unless that very object is the symbol found (name equality alone is
not sufficient); and when it succeeds it returns exactly the symbol the
lookup found, unchanged. -/
theorem claim_C9 (st : St) (name0 : SymOrStr) (package : Option Nat)
    (name1 : String) (pkgId1 : Nat)
    (hname1 : name1
      = (colon_keyword_adjust st (symOrStrName st name0) package).1)
    (hpkg1 : pkgId1
      = ((colon_keyword_adjust st (symOrStrName st name0)
          package).2).getD st.current_package) :
    ((lookup_symbol st name1 pkgId1).1 = none →
        pkg_emacs_intern_soft st name0 package = none)
      ∧ (∀ s, pkg_emacs_intern_soft st name0 package = some s →
          (lookup_symbol st name1 pkgId1).1 = some s
            ∧ ∀ id, name0 = SymOrStr.sym id → s = id)
      ∧ (∀ id s0, name0 = SymOrStr.sym id →
          (lookup_symbol st name1 pkgId1).1 = some s0 → s0 ≠ id →
          pkg_emacs_intern_soft st name0 package = none) := by
  subst hname1
  subst hpkg1
  refine ⟨?_, ?_, ?_⟩
  · intro h
    simp only [pkg_emacs_intern_soft]
    rw [h]
  · intro s hs
    simp only [pkg_emacs_intern_soft] at hs
    split at hs
    · simp at hs
    · rename_i found heq
      cases name0 with
      | sym id =>
        dsimp only at hs
        by_cases hfi : found = id
        · rw [if_pos hfi] at hs
          have hs2 : s = found := ((Option.some.injEq _ _).mp hs).symm
          refine ⟨by rw [hs2]; exact heq, ?_⟩
          intro id2 hid2
          have h3 : id = id2 := (SymOrStr.sym.injEq _ _).mp hid2
          rw [hs2, hfi, h3]
        · rw [if_neg hfi] at hs
          simp at hs
      | str s2 =>
        dsimp only at hs
        have hs2 : s = found := ((Option.some.injEq _ _).mp hs).symm
        refine ⟨by rw [hs2]; exact heq, ?_⟩
        intro id2 hid2
        simp at hid2
  · intro id s0 h0 hl0 hne
    subst h0
    simp only [pkg_emacs_intern_soft]
    rw [hl0]
    simp [hne]

/-- Witness for C9: a name-equal but distinct symbol object yields absent,
and a missing name yields absent. -/
theorem claim_C9_witness :
    pkg_emacs_intern_soft stC9 (SymOrStr.sym 1) (some 0) = none
      ∧ pkg_emacs_intern_soft stC9 (SymOrStr.str "nope") (some 0) = none := by
  have h1 := claim_C9 stC9 (SymOrStr.sym 1) (some 0) "x" 0
    (by decide) (by decide)
  have h2 := claim_C9 stC9 (SymOrStr.str "nope") (some 0) "nope" 0
    (by decide) (by decide)
  exact ⟨h1.2.2 1 0 rfl (by decide) (by decide), h2.1 (by decide)⟩

/-- Claim C10: a name whose first character is `:`, passed to the legacy
intern or intern-soft entry points with a nil package argument, is
diverted to the keyword package with the colon stripped; legacy intern of
`:foo` therefore yields the keyword symbol named `foo` — external,
self-evaluating, constant, declared-special, homed in the keyword package
— not a symbol named `:foo` in the current package. -/
theorem claim_C10 (st : St) (name : String) (pkg0 : Package)
    (hcolon : name.get? 0 = some ':')
    (hkw : st.pkgs[st.keyword_package]? = some pkg0)
    (hnf : (lookup_symbol st (name.drop 1) st.keyword_package).1 = none) :
    pkg_emacs_intern st name none
        = ((pkg_intern_symbol st (name.drop 1) st.keyword_package).1,
           (pkg_intern_symbol st (name.drop 1) st.keyword_package).2.1)
      ∧ pkg_emacs_intern_soft st (SymOrStr.str name) none
          = pkg_emacs_intern_soft st (SymOrStr.str (name.drop 1))
              (some st.keyword_package)
      ∧ pkg_intern_maybe_keyword st name
          = ((pkg_intern_symbol st (name.drop 1) st.keyword_package).1,
             (pkg_intern_symbol st (name.drop 1) st.keyword_package).2.1)
      ∧ symName (pkg_emacs_intern st name none).1
          (pkg_emacs_intern st name none).2 = name.drop 1
      ∧ symHome (pkg_emacs_intern st name none).1
          (pkg_emacs_intern st name none).2 = some st.keyword_package
      ∧ (pkg_emacs_intern st name none).2 = st.syms.length
      ∧ (pkg_emacs_intern st name
          none).1.syms[(pkg_emacs_intern st name none).2]?
          = some { name := name.drop 1, pkg := some st.keyword_package,
                   selfEvaluating := true, isConstant := true,
                   declared_special := true } := by
  have h1 : pkg_emacs_intern st name none
      = ((pkg_intern_symbol st (name.drop 1) st.keyword_package).1,
         (pkg_intern_symbol st (name.drop 1) st.keyword_package).2.1) := by
    simp [pkg_emacs_intern, colon_keyword_adjust, hcolon]
  have hd := pkg_intern_symbol_not_found st (name.drop 1) st.keyword_package
    pkg0 hkw hnf
  refine ⟨h1, ?_, ?_, ?_, ?_, ?_, ?_⟩
  · simp [pkg_emacs_intern_soft, colon_keyword_adjust, hcolon, symOrStrName]
  · simp [pkg_intern_maybe_keyword, hcolon]
  · rw [h1, hd]
    simp [symName, List.getElem?_concat_length]
  · rw [h1, hd]
    simp [symHome, List.getElem?_concat_length]
  · rw [h1, hd]
  · rw [h1, hd]
    simp [List.getElem?_concat_length]

/-- Witness for C10: legacy intern of `:foo` in the bootstrap state. -/
theorem claim_C10_witness :
    pkg_emacs_intern stC10 ":foo" none
        = ((pkg_intern_symbol stC10 "foo" stC10.keyword_package).1,
           (pkg_intern_symbol stC10 "foo" stC10.keyword_package).2.1)
      ∧ symName (pkg_emacs_intern stC10 ":foo" none).1
          (pkg_emacs_intern stC10 ":foo" none).2 = "foo"
      ∧ symHome (pkg_emacs_intern stC10 ":foo" none).1
          (pkg_emacs_intern stC10 ":foo" none).2
          = some stC10.keyword_package := by
  have h := claim_C10 stC10 ":foo" pkgKeyword (by decide) rfl (by decide)
  refine ⟨?_, ?_, h.2.2.2.2.1⟩
  · exact h.1
  · exact h.2.2.2.1

end PkgModel
